import Mathlib

/-!
Verification development for the numerical core of the Ornstein-Uhlenbeck
RC-circuit simulator (the `graphs` function of `SimulProyectoMMFI.py`).

The embedding models floating-point arithmetic by real arithmetic.  The
pre-drawn standard-normal increment matrix `normals` is modelled by an
arbitrary function `Z : ℕ → ℕ → ℝ` (row = trajectory index, column = step),
since the generator is unseeded and any real value is a possible draw.
-/

namespace OU

/-- Model of the parameter record used by the numerical core of `graphs`,
after reading the input dictionary: `C` is already converted to Farads and
`n_traj` is already clamped to a positive integer. -/
structure Params where
  R : ℝ
  C : ℝ
  V0 : ℝ
  Vf : ℝ
  sigma : ℝ
  dt : ℝ
  T : ℝ
  n_traj : ℕ

/-- A raw input field of the parameter dictionary: missing (`.get` returns the
default), present and converting successfully, or present but raising on
conversion (`float(...)` / `int(...)` throwing). -/
inductive RawVal (α : Type) where
  | absent : RawVal α
  | valid : α → RawVal α
  | invalid : RawVal α

/-- The raw parameter dictionary handed to `graphs`. -/
structure RawParams where
  rawR : RawVal ℝ
  rawC : RawVal ℝ
  rawV0 : RawVal ℝ
  rawVf : RawVal ℝ
  rawSigma : RawVal ℝ
  rawDt : RawVal ℝ
  rawT : RawVal ℝ
  rawN : RawVal ℤ

/-- Model of `float(parametros.get(key, default))`: the default when the key is
absent, the parsed value when present and well formed, an exception (`none`)
when present but malformed. -/
def readField {α : Type} (r : RawVal α) (d : α) : Option α :=
  match r with
  | RawVal.absent => some d
  | RawVal.valid x => some x
  | RawVal.invalid => none

/-- The value a field contributes when no exception occurs. -/
def valOf {α : Type} (r : RawVal α) (d : α) : α :=
  match r with
  | RawVal.absent => d
  | RawVal.valid x => x
  | RawVal.invalid => d

/-- The hardcoded parameter set of the `except` branch of `graphs` (line 52 of
the source). -/
noncomputable def fallbackParams : Params :=
  ⟨2000, 1e-3, 0, 10, 1, 0.01, 10, 20⟩

/-- The `try` block of `graphs` (lines 41-49): each field is read with its own
default, `C` is scaled from microfarads to Farads, and the trajectory count is
clamped by `int(max(1, int(...)))`.  The first field that raises aborts the
whole block. -/
noncomputable def parseTry (q : RawParams) : Option Params :=
  (readField q.rawR 2000).bind fun r =>
  (readField q.rawC 1000).bind fun c =>
  (readField q.rawV0 0).bind fun v0 =>
  (readField q.rawVf 10).bind fun vf =>
  (readField q.rawSigma 1).bind fun sg =>
  (readField q.rawDt 0.01).bind fun d0 =>
  (readField q.rawT 10).bind fun t0 =>
  (readField q.rawN 20).bind fun nt =>
  some ⟨r, c * 1e-6, v0, vf, sg, d0, t0, (max 1 nt).toNat⟩

/-- The whole parameter-reading phase of `graphs`: the `try` block, falling
back to the hardcoded defaults on any exception. -/
noncomputable def parseParams (q : RawParams) : Params :=
  (parseTry q).getD fallbackParams

/-- No field of the raw dictionary raises on conversion. -/
def noInvalid (q : RawParams) : Prop :=
  q.rawR ≠ RawVal.invalid ∧ q.rawC ≠ RawVal.invalid ∧ q.rawV0 ≠ RawVal.invalid ∧
  q.rawVf ≠ RawVal.invalid ∧ q.rawSigma ≠ RawVal.invalid ∧ q.rawDt ≠ RawVal.invalid ∧
  q.rawT ≠ RawVal.invalid ∧ q.rawN ≠ RawVal.invalid

/-- Line 54: `theta = 1.0 / (R * C) if R * C != 0 else 1.0`. -/
noncomputable def theta (p : Params) : ℝ :=
  if p.R * p.C ≠ 0 then 1 / (p.R * p.C) else 1

/-- Line 56: `N = max(2, int(np.ceil(T / dt)))`. -/
noncomputable def N (p : Params) : ℕ :=
  max 2 (Int.toNat ⌈p.T / p.dt⌉)

/-- Entry `k` of `np.linspace(0, T, N)`: `k * T / (N - 1)`. -/
noncomputable def x_at (p : Params) (k : ℕ) : ℝ :=
  (k : ℝ) * p.T / ((N p : ℝ) - 1)

/-- Line 57: the time grid `x = np.linspace(0, T, N)` as a list. -/
noncomputable def x_list (p : Params) : List ℝ :=
  (List.range (N p)).map (x_at p)

/-- Lines 60-61: `trajectories = np.zeros((n_traj, N)); trajectories[:, 0] = V0`. -/
noncomputable def initTraj (p : Params) : ℕ → ℕ → ℝ :=
  fun _ s => if s = 0 then p.V0 else 0

/-- The body of the Euler-Maruyama loop (lines 67-72): write column `t` from
column `t - 1`, leave every other column unchanged. -/
noncomputable def emStep (p : Params) (Z : ℕ → ℕ → ℝ) (M : ℕ → ℕ → ℝ) (t : ℕ) :
    ℕ → ℕ → ℝ :=
  fun i s =>
    if s = t then
      M i (t - 1) + theta p * (p.Vf - M i (t - 1)) * p.dt
        + p.sigma * Real.sqrt p.dt * Z i (t - 1)
    else M i s

/-- State of the trajectory matrix after the loop has processed steps
`1, ..., k`. -/
noncomputable def emLoop (p : Params) (Z : ℕ → ℕ → ℝ) : ℕ → ℕ → ℕ → ℝ
  | 0 => initTraj p
  | t + 1 => emStep p Z (emLoop p Z t) (t + 1)

/-- The trajectory matrix returned by the simulator: the loop `for t in
range(1, N)` has processed steps `1, ..., N - 1`. -/
noncomputable def trajectories (p : Params) (Z : ℕ → ℕ → ℝ) : ℕ → ℕ → ℝ :=
  emLoop p Z (N p - 1)

/-- The trajectory ensemble as a list of rows (shape `(n_traj, N)`). -/
noncomputable def ensemble (p : Params) (Z : ℕ → ℕ → ℝ) : List (List ℝ) :=
  (List.range p.n_traj).map fun i => (List.range (N p)).map fun t => trajectories p Z i t

/-- Line 81: `X_all = trajectories.flatten()` (row-major, all time points of
all trajectories). -/
noncomputable def X_flat (p : Params) (Z : ℕ → ℕ → ℝ) : List ℝ :=
  (List.range p.n_traj).flatMap fun i => (List.range (N p)).map fun t => trajectories p Z i t

/-- Lines 82-83: if the flattened sample has fewer than 2 entries (by count),
replace it by the pair `[X_all[0], X_all[0] + 1e-6]`. -/
noncomputable def X_all (p : Params) (Z : ℕ → ℕ → ℝ) : List ℝ :=
  if (X_flat p Z).length < 2 then [(X_flat p Z).headI, (X_flat p Z).headI + 1e-6]
  else X_flat p Z

/-- `np.min` of a nonempty list (0 on the empty list, unreachable here). -/
noncomputable def listMin : List ℝ → ℝ
  | [] => 0
  | a :: t => t.foldl min a

/-- `np.max` of a nonempty list (0 on the empty list, unreachable here). -/
noncomputable def listMax : List ℝ → ℝ
  | [] => 0
  | a :: t => t.foldl max a

/-- Lower end of the KDE evaluation grid: `np.min(X_all) - 0.1`. -/
noncomputable def gridLo (p : Params) (Z : ℕ → ℕ → ℝ) : ℝ :=
  listMin (X_all p Z) - 0.1

/-- Upper end of the KDE evaluation grid: `np.max(X_all) + 0.1`. -/
noncomputable def gridHi (p : Params) (Z : ℕ → ℕ → ℝ) : ℝ :=
  listMax (X_all p Z) + 0.1

/-- Entry `k` of `x_vals = np.linspace(gridLo, gridHi, 300)`. -/
noncomputable def x_vals_at (p : Params) (Z : ℕ → ℕ → ℝ) (k : ℕ) : ℝ :=
  gridLo p Z + (k : ℝ) * (gridHi p Z - gridLo p Z) / 299

/-- Line 86: the 300-point evaluation grid as a list. -/
noncomputable def x_vals (p : Params) (Z : ℕ → ℕ → ℝ) : List ℝ :=
  (List.range 300).map (x_vals_at p Z)

/-- Line 93: `dx = x_vals[1] - x_vals[0]`. -/
noncomputable def dx (p : Params) (Z : ℕ → ℕ → ℝ) : ℝ :=
  x_vals_at p Z 1 - x_vals_at p Z 0

/-- The bandwidth of `scipy.stats.gaussian_kde` with the default Scott rule in
one dimension: `n ^ (-1/5)` times the sample standard deviation (sample
covariance with one delta degree of freedom). -/
noncomputable def kdeBandwidth (s : List ℝ) : ℝ :=
  ((s.length : ℝ) ^ (-(1 / 5 : ℝ))) *
    Real.sqrt (((s.map fun y => (y - s.sum / (s.length : ℝ)) ^ 2).sum) / ((s.length : ℝ) - 1))

/-- Evaluation of the Gaussian-kernel density estimate built on sample `s` at
point `v`: the average of Gaussian kernels of bandwidth `kdeBandwidth s`
centred at the sample points. -/
noncomputable def kdeEval (s : List ℝ) (v : ℝ) : ℝ :=
  ((s.map fun y => Real.exp (-((v - y) ^ 2) / (2 * kdeBandwidth s ^ 2))).sum) /
    ((s.length : ℝ) * kdeBandwidth s * Real.sqrt (2 * Real.pi))

/-- Line 87: the empirical density, the KDE fitted on `X_all`. -/
noncomputable def pdf_sim (p : Params) (Z : ℕ → ℕ → ℝ) (v : ℝ) : ℝ :=
  kdeEval (X_all p Z) v

/-- Line 89: `mean_an = Vf + (V0 - Vf) * np.exp(-theta * T)`. -/
noncomputable def mean_an (p : Params) : ℝ :=
  p.Vf + (p.V0 - p.Vf) * Real.exp (-(theta p) * p.T)

/-- Line 90: `var_an = sigma**2 / (2 * theta) * (1 - np.exp(-2 * theta * T))`. -/
noncomputable def var_an (p : Params) : ℝ :=
  p.sigma ^ 2 / (2 * theta p) * (1 - Real.exp (-2 * theta p * p.T))

/-- `scipy.stats.norm.pdf(v, m, sd)`. -/
noncomputable def normPdf (m sd v : ℝ) : ℝ :=
  Real.exp (-((v - m) ^ 2) / (2 * sd ^ 2)) / (sd * Real.sqrt (2 * Real.pi))

/-- Line 91: the analytical density `norm.pdf(x_vals, mean_an, sqrt(var_an))`. -/
noncomputable def pdf_an (p : Params) (v : ℝ) : ℝ :=
  normPdf (mean_an p) (Real.sqrt (var_an p)) v

/-- Line 95: `overlap = np.sum(np.minimum(pdf_sim, pdf_an) * dx)`. -/
noncomputable def overlap (p : Params) (Z : ℕ → ℕ → ℝ) : ℝ :=
  ((List.range 300).map fun k =>
    min (pdf_sim p Z (x_vals_at p Z k)) (pdf_an p (x_vals_at p Z k)) * dx p Z).sum

/-- The default parameter set of the source (also the instance of testable
property 4 of the spec). -/
noncomputable def Pdef : Params := ⟨2000, 1e-3, 0, 10, 1, 0.01, 10, 20⟩

/-- Degenerate run: one trajectory, `T = dt`, so `N = 2`; `V0 = Vf` so the
deterministic part keeps the path constant. -/
noncomputable def P7 : Params := ⟨1, 1, 1, 1, 1, 1, 1, 1⟩

/-- The all-zero increment draw. -/
def Z0 : ℕ → ℕ → ℝ := fun _ _ => 0

/-- Parameter set with `R * C = 0`. -/
noncomputable def P8 : Params := ⟨0, 1, 0, 10, 1, 0.01, 10, 20⟩

/-- Parameter set driving the overlap metric above 1: one trajectory of 100
points pinned at `Vf = 1` except for a final point `1 + 1/1490`, with tiny
noise intensity so that both densities are sharp spikes at the grid point
`x_vals[149] = 1`. -/
noncomputable def P6 : Params := ⟨1, 1, 1, 1, 1 / 10000, 1, 100, 1⟩

/-- Increment draw for `P6`: zero except at the last step, which lifts the
final point by `1/1490`. -/
noncomputable def Z6 : ℕ → ℕ → ℝ := fun _ t => if t = 98 then 1000 / 149 else 0

/-- Raw dictionary with one present (valid) field and the rest absent. -/
noncomputable def q9a : RawParams :=
  ⟨RawVal.absent, RawVal.absent, RawVal.valid 5, RawVal.absent, RawVal.absent,
    RawVal.absent, RawVal.absent, RawVal.absent⟩

/-- Raw dictionary with one valid field and one malformed field. -/
noncomputable def q9b : RawParams :=
  ⟨RawVal.absent, RawVal.absent, RawVal.valid 5, RawVal.absent, RawVal.absent,
    RawVal.absent, RawVal.invalid, RawVal.absent⟩

/-- Raw dictionary whose trajectory count is the (negative) integer -5. -/
noncomputable def q10 : RawParams :=
  ⟨RawVal.absent, RawVal.absent, RawVal.absent, RawVal.absent, RawVal.absent,
    RawVal.absent, RawVal.absent, RawVal.valid (-5)⟩

lemma two_le_N (p : Params) : 2 ≤ N p := le_max_left _ _

lemma emLoop_stable (p : Params) (Z : ℕ → ℕ → ℝ) (i s k : ℕ) (hsk : s ≤ k) :
    ∀ m, k ≤ m → emLoop p Z m i s = emLoop p Z k i s := by
  intro m hm
  induction m, hm using Nat.le_induction with
  | base => rfl
  | succ m hm ih =>
    have hs : ¬ s = m + 1 := by omega
    calc emLoop p Z (m + 1) i s = emLoop p Z m i s := by
          simp [emLoop, emStep, hs]
      _ = emLoop p Z k i s := ih

lemma trajectories_zero (p : Params) (Z : ℕ → ℕ → ℝ) (i : ℕ) :
    trajectories p Z i 0 = p.V0 := by
  have h := emLoop_stable p Z i 0 0 le_rfl (N p - 1) (Nat.zero_le _)
  rw [trajectories, h]
  simp [emLoop, initTraj]

lemma trajectories_succ (p : Params) (Z : ℕ → ℕ → ℝ) (t : ℕ)
    (h1 : 1 ≤ t) (h2 : t ≤ N p - 1) (i : ℕ) :
    trajectories p Z i t =
      trajectories p Z i (t - 1) + theta p * (p.Vf - trajectories p Z i (t - 1)) * p.dt
        + p.sigma * Real.sqrt p.dt * Z i (t - 1) := by
  obtain ⟨u, rfl⟩ : ∃ u, t = u + 1 := ⟨t - 1, by omega⟩
  have hA : trajectories p Z i (u + 1) = emLoop p Z (u + 1) i (u + 1) := by
    rw [trajectories]
    exact emLoop_stable p Z i (u + 1) (u + 1) le_rfl (N p - 1) h2
  have hB : emLoop p Z (u + 1) i (u + 1) =
      emLoop p Z u i u + theta p * (p.Vf - emLoop p Z u i u) * p.dt
        + p.sigma * Real.sqrt p.dt * Z i u := by
    simp [emLoop, emStep]
  have hC : emLoop p Z u i u = trajectories p Z i u := by
    rw [trajectories]
    exact (emLoop_stable p Z i u u le_rfl (N p - 1) (by omega)).symm
  simp only [Nat.add_sub_cancel]
  rw [hA, hB, hC]

lemma sum_map_const_nat (n m : ℕ) : ((List.range n).map fun _ => m).sum = n * m := by
  induction n with
  | zero => simp
  | succ k ih =>
    rw [List.range_succ, List.map_append, List.sum_append, ih]
    simp [Nat.succ_mul]

lemma sum_map_const_real (n : ℕ) (c : ℝ) : ((List.range n).map fun _ => c).sum = n * c := by
  induction n with
  | zero => simp
  | succ k ih =>
    rw [List.range_succ, List.map_append, List.sum_append, ih]
    push_cast
    ring_nf
    simp [add_mul]

lemma foldl_min_le_init (t : List ℝ) : ∀ a : ℝ, t.foldl min a ≤ a := by
  induction t with
  | nil => intro a; simp
  | cons b r ih => intro a; exact le_trans (ih (min a b)) (min_le_left a b)

lemma init_le_foldl_max (t : List ℝ) : ∀ a : ℝ, a ≤ t.foldl max a := by
  induction t with
  | nil => intro a; simp
  | cons b r ih => intro a; exact le_trans (le_max_left a b) (ih (max a b))

lemma le_foldl_min (t : List ℝ) :
    ∀ a c : ℝ, c ≤ a → (∀ y ∈ t, c ≤ y) → c ≤ t.foldl min a := by
  induction t with
  | nil => intro a c hca _; exact hca
  | cons b r ih =>
    intro a c hca hall
    exact ih (min a b) c (le_min hca (hall b (List.mem_cons_self b r)))
      fun y hy => hall y (List.mem_cons_of_mem b hy)

lemma foldl_max_le (t : List ℝ) :
    ∀ a c : ℝ, a ≤ c → (∀ y ∈ t, y ≤ c) → t.foldl max a ≤ c := by
  induction t with
  | nil => intro a c hac _; exact hac
  | cons b r ih =>
    intro a c hac hall
    exact ih (max a b) c (max_le hac (hall b (List.mem_cons_self b r)))
      fun y hy => hall y (List.mem_cons_of_mem b hy)

lemma foldl_min_le_mem (t : List ℝ) :
    ∀ a y : ℝ, y ∈ t → t.foldl min a ≤ y := by
  induction t with
  | nil => intro a y hy; simp at hy
  | cons b r ih =>
    intro a y hy
    rcases List.mem_cons.mp hy with h | h
    · subst h
      exact le_trans (foldl_min_le_init r (min a y)) (min_le_right a y)
    · exact ih (min a b) y h

lemma mem_le_foldl_max (t : List ℝ) :
    ∀ a y : ℝ, y ∈ t → y ≤ t.foldl max a := by
  induction t with
  | nil => intro a y hy; simp at hy
  | cons b r ih =>
    intro a y hy
    rcases List.mem_cons.mp hy with h | h
    · subst h
      exact le_trans (le_max_right a y) (init_le_foldl_max r (max a y))
    · exact ih (max a b) y h

lemma listMin_eq_of (l : List ℝ) (c : ℝ) (hmem : c ∈ l) (hlb : ∀ y ∈ l, c ≤ y) :
    listMin l = c := by
  cases l with
  | nil => simp at hmem
  | cons a t =>
    refine le_antisymm ?_ ?_
    · rcases List.mem_cons.mp hmem with h | h
      · rw [listMin, ← h] at *
        exact le_trans (foldl_min_le_init t c) le_rfl
      · exact foldl_min_le_mem t a c h
    · exact le_foldl_min t a c (hlb a (List.mem_cons_self a t))
        fun y hy => hlb y (List.mem_cons_of_mem a hy)

lemma listMax_eq_of (l : List ℝ) (c : ℝ) (hmem : c ∈ l) (hub : ∀ y ∈ l, y ≤ c) :
    listMax l = c := by
  cases l with
  | nil => simp at hmem
  | cons a t =>
    refine le_antisymm ?_ ?_
    · exact foldl_max_le t a c (hub a (List.mem_cons_self a t))
        fun y hy => hub y (List.mem_cons_of_mem a hy)
    · rcases List.mem_cons.mp hmem with h | h
      · rw [listMax, ← h]
        exact init_le_foldl_max t c
      · exact mem_le_foldl_max t a c h

lemma listMin_le_listMax (l : List ℝ) : listMin l ≤ listMax l := by
  cases l with
  | nil => exact le_rfl
  | cons a t => exact le_trans (foldl_min_le_init t a) (init_le_foldl_max t a)

lemma X_flat_length (p : Params) (Z : ℕ → ℕ → ℝ) :
    (X_flat p Z).length = p.n_traj * N p := by
  rw [X_flat, List.length_flatMap]
  simp only [Function.comp_def, List.length_map, List.length_range]
  rw [sum_map_const_nat]

lemma two_le_X_flat_length (p : Params) (Z : ℕ → ℕ → ℝ) (h : 1 ≤ p.n_traj) :
    2 ≤ (X_flat p Z).length := by
  rw [X_flat_length]
  calc 2 = 1 * 2 := by omega
    _ ≤ p.n_traj * N p := Nat.mul_le_mul h (two_le_N p)

lemma X_all_eq_X_flat (p : Params) (Z : ℕ → ℕ → ℝ) (h : 1 ≤ p.n_traj) :
    X_all p Z = X_flat p Z := by
  rw [X_all, if_neg (not_lt.mpr (two_le_X_flat_length p Z h))]

lemma readField_eq_some {α : Type} (r : RawVal α) (d : α) (h : r ≠ RawVal.invalid) :
    readField r d = some (valOf r d) := by
  cases r with
  | absent => rfl
  | valid x => rfl
  | invalid => exact absurd rfl h

lemma readField_ne_invalid {α : Type} {r : RawVal α} {d v : α}
    (h : readField r d = some v) : r ≠ RawVal.invalid := by
  intro hinv
  subst hinv
  simp [readField] at h

lemma parseTry_eq_some_imp {q : RawParams} {p : Params} (h : parseTry q = some p) :
    noInvalid q := by
  rw [parseTry] at h
  simp only [Option.bind_eq_some] at h
  obtain ⟨r, hr, c, hc, v0, hv0, vf, hvf, sg, hsg, d0, hd0, t0, ht0, nt, hnt, _⟩ := h
  exact ⟨readField_ne_invalid hr, readField_ne_invalid hc, readField_ne_invalid hv0,
    readField_ne_invalid hvf, readField_ne_invalid hsg, readField_ne_invalid hd0,
    readField_ne_invalid ht0, readField_ne_invalid hnt⟩

lemma parseParams_of_noInvalid {q : RawParams} (h : noInvalid q) :
    parseParams q =
      ⟨valOf q.rawR 2000, valOf q.rawC 1000 * 1e-6, valOf q.rawV0 0, valOf q.rawVf 10,
        valOf q.rawSigma 1, valOf q.rawDt 0.01, valOf q.rawT 10,
        (max 1 (valOf q.rawN 20)).toNat⟩ := by
  obtain ⟨h1, h2, h3, h4, h5, h6, h7, h8⟩ := h
  rw [parseParams, parseTry, readField_eq_some _ _ h1, readField_eq_some _ _ h2,
    readField_eq_some _ _ h3, readField_eq_some _ _ h4, readField_eq_some _ _ h5,
    readField_eq_some _ _ h6, readField_eq_some _ _ h7, readField_eq_some _ _ h8]
  rfl

lemma parseParams_of_invalid {q : RawParams} (h : ¬ noInvalid q) :
    parseParams q = fallbackParams := by
  rw [parseParams]
  cases hq : parseTry q with
  | none => rfl
  | some p => exact absurd (parseTry_eq_some_imp hq) h

lemma N_P7 : N P7 = 2 := by
  have h : P7.T / P7.dt = 1 := by norm_num [P7]
  rw [N, h, Int.ceil_one]
  rfl

/-- Claim C8: when `R * C` evaluates to exactly 0 the mean-reversion rate
`theta` is set to exactly 1.0 (no division-by-zero), and otherwise
`theta = 1 / (R * C)`. -/
theorem C8_theta_fallback (p : Params) :
    (p.R * p.C = 0 → theta p = 1) ∧ (p.R * p.C ≠ 0 → theta p = 1 / (p.R * p.C)) := by
  constructor
  · intro h
    rw [theta, if_neg (not_not_intro h)]
  · intro h
    rw [theta, if_pos h]

/-- Witness for C8 at `R = 0` (fallback branch) and at the default parameters
(regular branch). -/
theorem C8_witness :
    (P8.R * P8.C = 0 ∧ theta P8 = 1) ∧
    (Pdef.R * Pdef.C ≠ 0 ∧ theta Pdef = 1 / (Pdef.R * Pdef.C)) := by
  have h0 : P8.R * P8.C = 0 := by norm_num [P8]
  have h1 : Pdef.R * Pdef.C ≠ 0 := by norm_num [Pdef]
  exact ⟨⟨h0, (C8_theta_fallback P8).1 h0⟩, ⟨h1, (C8_theta_fallback Pdef).2 h1⟩⟩

/-- Claim C4: every row of the trajectory ensemble equals `V0` at column 0. -/
theorem C4_initial_condition (p : Params) (Z : ℕ → ℕ → ℝ) (i : ℕ) :
    trajectories p Z i 0 = p.V0 :=
  trajectories_zero p Z i

/-- Claim C1: for every step `t` from 1 to `N - 1`, each trajectory row
satisfies the Euler-Maruyama update
`V[t] = V[t-1] + theta * (Vf - V[t-1]) * dt + sigma * sqrt(dt) * Z[t-1]`,
with `theta = 1 / (R * C)` for nondegenerate `R * C`. -/
theorem C1_euler_update (p : Params) (Z : ℕ → ℕ → ℝ) (t : ℕ)
    (h1 : 1 ≤ t) (h2 : t ≤ N p - 1) (hRC : p.R * p.C ≠ 0) (i : ℕ) :
    (trajectories p Z i t =
      trajectories p Z i (t - 1) + theta p * (p.Vf - trajectories p Z i (t - 1)) * p.dt
        + p.sigma * Real.sqrt p.dt * Z i (t - 1)) ∧
    theta p = 1 / (p.R * p.C) :=
  ⟨trajectories_succ p Z t h1 h2 i, by rw [theta, if_pos hRC]⟩

/-- Witness for C1 at the concrete run `P7`, step `t = 1`, row 0. -/
theorem C1_witness :
    (1 : ℕ) ≤ 1 ∧ 1 ≤ N P7 - 1 ∧ P7.R * P7.C ≠ 0 ∧
    ((trajectories P7 Z0 0 1 =
        trajectories P7 Z0 0 (1 - 1)
          + theta P7 * (P7.Vf - trajectories P7 Z0 0 (1 - 1)) * P7.dt
          + P7.sigma * Real.sqrt P7.dt * Z0 0 (1 - 1)) ∧
      theta P7 = 1 / (P7.R * P7.C)) := by
  have hN : 1 ≤ N P7 - 1 := by rw [N_P7]
  have hrc : P7.R * P7.C ≠ 0 := by norm_num [P7]
  exact ⟨le_rfl, hN, hrc, C1_euler_update P7 Z0 1 le_rfl hN hrc 0⟩

/-- Claim C3: for `T > 0` and `dt > 0` the time grid has exactly
`max(2, ceil(T/dt))` points, starts at 0, ends at `T`, and is evenly spaced. -/
theorem C3_time_grid (p : Params) (hT : 0 < p.T) (hdt : 0 < p.dt) :
    (x_list p).length = max 2 (Int.toNat ⌈p.T / p.dt⌉) ∧
    ((Int.toNat ⌈p.T / p.dt⌉ : ℤ) = ⌈p.T / p.dt⌉) ∧
    x_at p 0 = 0 ∧
    x_at p (N p - 1) = p.T ∧
    ∀ k : ℕ, x_at p (k + 1) - x_at p k = p.T / ((N p : ℝ) - 1) := by
  have h2 : 2 ≤ N p := two_le_N p
  have hcast : (2 : ℝ) ≤ (N p : ℝ) := by exact_mod_cast h2
  have hc : ((N p : ℝ) - 1) ≠ 0 := by linarith
  refine ⟨?_, ?_, ?_, ?_, ?_⟩
  · rw [x_list, List.length_map, List.length_range]
    rfl
  · exact Int.toNat_of_nonneg (Int.ceil_nonneg (le_of_lt (div_pos hT hdt)))
  · simp [x_at]
  · rw [x_at]
    have h1 : 1 ≤ N p := by omega
    have hsub : ((N p - 1 : ℕ) : ℝ) = (N p : ℝ) - 1 := by
      rw [Nat.cast_sub h1, Nat.cast_one]
    rw [hsub, mul_comm, mul_div_assoc, div_self hc, mul_one]
  · intro k
    rw [x_at, x_at, div_sub_div_same]
    congr 1
    push_cast
    ring

/-- Witness for C3 at the default parameters (`T = 10`, `dt = 0.01`). -/
theorem C3_witness :
    0 < Pdef.T ∧ 0 < Pdef.dt ∧
    ((x_list Pdef).length = max 2 (Int.toNat ⌈Pdef.T / Pdef.dt⌉) ∧
      ((Int.toNat ⌈Pdef.T / Pdef.dt⌉ : ℤ) = ⌈Pdef.T / Pdef.dt⌉) ∧
      x_at Pdef 0 = 0 ∧
      x_at Pdef (N Pdef - 1) = Pdef.T ∧
      ∀ k : ℕ, x_at Pdef (k + 1) - x_at Pdef k = Pdef.T / ((N Pdef : ℝ) - 1)) := by
  have hT : 0 < Pdef.T := by norm_num [Pdef]
  have hdt : 0 < Pdef.dt := by norm_num [Pdef]
  exact ⟨hT, hdt, C3_time_grid Pdef hT hdt⟩

/-- Claim C9: defaults are applied per absent field (with `C` scaled from
microfarads), but any present field that fails to parse makes the whole
parameter set fall back to the fixed hardcoded defaults, discarding every
field that parsed successfully. -/
theorem C9_parse_defaults (q : RawParams) :
    (noInvalid q →
      parseParams q =
        ⟨valOf q.rawR 2000, valOf q.rawC 1000 * 1e-6, valOf q.rawV0 0, valOf q.rawVf 10,
          valOf q.rawSigma 1, valOf q.rawDt 0.01, valOf q.rawT 10,
          (max 1 (valOf q.rawN 20)).toNat⟩) ∧
    (¬ noInvalid q → parseParams q = fallbackParams) :=
  ⟨parseParams_of_noInvalid, parseParams_of_invalid⟩

/-- Witness for C9: a dictionary with `V0` present and the rest absent keeps
the per-field defaults, while an otherwise identical dictionary with a
malformed `T` field collapses to the hardcoded fallback. -/
theorem C9_witness :
    (noInvalid q9a ∧
      parseParams q9a =
        ⟨valOf q9a.rawR 2000, valOf q9a.rawC 1000 * 1e-6, valOf q9a.rawV0 0, valOf q9a.rawVf 10,
          valOf q9a.rawSigma 1, valOf q9a.rawDt 0.01, valOf q9a.rawT 10,
          (max 1 (valOf q9a.rawN 20)).toNat⟩) ∧
    (¬ noInvalid q9b ∧ parseParams q9b = fallbackParams) := by
  have ha : noInvalid q9a := by
    refine ⟨?_, ?_, ?_, ?_, ?_, ?_, ?_, ?_⟩ <;> simp [q9a]
  have hb : ¬ noInvalid q9b := by
    intro h
    exact absurd rfl h.2.2.2.2.2.2.1
  exact ⟨⟨ha, (C9_parse_defaults q9a).1 ha⟩, ⟨hb, (C9_parse_defaults q9b).2 hb⟩⟩

/-- Claim C10: the ensemble-size input is silently clamped: for any integer
input `z` (including 0 and negatives) the number of trajectory rows is
`max(1, z)`, so the ensemble always has at least one row. -/
theorem C10_ntraj_clamp (q : RawParams) (z : ℤ) (hz : q.rawN = RawVal.valid z)
    (h : noInvalid q) (Z : ℕ → ℕ → ℝ) :
    (parseParams q).n_traj = (max 1 z).toNat ∧
    1 ≤ (parseParams q).n_traj ∧
    (ensemble (parseParams q) Z).length = (max 1 z).toNat := by
  have hp := parseParams_of_noInvalid h
  have hv : valOf q.rawN 20 = z := by
    rw [hz, valOf]
  have hn : (parseParams q).n_traj = (max 1 z).toNat := by
    rw [hp]
    show (max 1 (valOf q.rawN 20)).toNat = (max 1 z).toNat
    rw [hv]
  have hone : 1 ≤ (max 1 z).toNat := by
    have h1 : (1 : ℤ) ≤ max 1 z := le_max_left 1 z
    omega
  refine ⟨hn, ?_, ?_⟩
  · rw [hn]
    exact hone
  · rw [ensemble, List.length_map, List.length_range, hn]

/-- Witness for C10 at the negative input `-5`, clamped to one row. -/
theorem C10_witness :
    q10.rawN = RawVal.valid (-5) ∧ noInvalid q10 ∧
    ((parseParams q10).n_traj = (max 1 (-5 : ℤ)).toNat ∧
      1 ≤ (parseParams q10).n_traj ∧
      (ensemble (parseParams q10) Z0).length = (max 1 (-5 : ℤ)).toNat) := by
  have hz : q10.rawN = RawVal.valid (-5) := rfl
  have h : noInvalid q10 := by
    refine ⟨?_, ?_, ?_, ?_, ?_, ?_, ?_, ?_⟩ <;> simp [q10]
  exact ⟨hz, h, C10_ntraj_clamp q10 (-5) hz h Z0⟩

/-- Claim C5: the empirical density is estimated from the flattened ensemble of
all `n_traj * N` values (every time point of every trajectory), and the
evaluation grid has exactly 300 evenly spaced points from `min(sample) - 0.1`
to `max(sample) + 0.1`. -/
theorem C5_density_input_and_grid (p : Params) (Z : ℕ → ℕ → ℝ) (h : 1 ≤ p.n_traj) :
    (X_flat p Z).length = p.n_traj * N p ∧
    X_all p Z = X_flat p Z ∧
    (x_vals p Z).length = 300 ∧
    x_vals_at p Z 0 = listMin (X_flat p Z) - 0.1 ∧
    x_vals_at p Z 299 = listMax (X_flat p Z) + 0.1 ∧
    (∀ k : ℕ, x_vals_at p Z (k + 1) - x_vals_at p Z k = (gridHi p Z - gridLo p Z) / 299) ∧
    ∀ v : ℝ, pdf_sim p Z v = kdeEval (X_flat p Z) v := by
  have hx := X_all_eq_X_flat p Z h
  refine ⟨X_flat_length p Z, hx, ?_, ?_, ?_, ?_, ?_⟩
  · rw [x_vals, List.length_map, List.length_range]
  · rw [x_vals_at, gridLo, hx]
    push_cast
    ring
  · rw [x_vals_at, gridHi, gridLo, hx]
    push_cast
    ring
  · intro k
    rw [x_vals_at, x_vals_at]
    push_cast
    ring
  · intro v
    rw [pdf_sim, hx]

/-- Witness for C5 at the one-trajectory run `P7`. -/
theorem C5_witness :
    1 ≤ P7.n_traj ∧
    ((X_flat P7 Z0).length = P7.n_traj * N P7 ∧
      X_all P7 Z0 = X_flat P7 Z0 ∧
      (x_vals P7 Z0).length = 300 ∧
      x_vals_at P7 Z0 0 = listMin (X_flat P7 Z0) - 0.1 ∧
      x_vals_at P7 Z0 299 = listMax (X_flat P7 Z0) + 0.1 ∧
      (∀ k : ℕ,
        x_vals_at P7 Z0 (k + 1) - x_vals_at P7 Z0 k = (gridHi P7 Z0 - gridLo P7 Z0) / 299) ∧
      ∀ v : ℝ, pdf_sim P7 Z0 v = kdeEval (X_flat P7 Z0) v) := by
  have h : 1 ≤ P7.n_traj := by norm_num [P7]
  exact ⟨h, C5_density_input_and_grid P7 Z0 h⟩

lemma theta_P7 : theta P7 = 1 := by
  rw [theta]
  norm_num [P7]

lemma traj_P7_zero : trajectories P7 Z0 0 0 = 1 := by
  rw [trajectories_zero]
  norm_num [P7]

lemma traj_P7_one : trajectories P7 Z0 0 1 = 1 := by
  have h := trajectories_succ P7 Z0 1 le_rfl (by rw [N_P7]) 0
  rw [h]
  simp only [Nat.sub_self]
  rw [traj_P7_zero, theta_P7]
  simp [Z0, P7]

lemma X_flat_P7 : X_flat P7 Z0 = [1, 1] := by
  have hn : P7.n_traj = 1 := rfl
  rw [X_flat, N_P7, hn]
  simp [List.range_succ, traj_P7_zero, traj_P7_one]

/-- Counterexample to claim C7: in the degenerate run `n_traj = 1`, `N = 2`
(from `T = dt`) with `V0 = Vf` and zero draws, the flattened sample `[1, 1]`
has a single distinct value, yet no second point offset by `1e-6` is
synthesized: the branch tests the sample length (which is 2), not the number
of distinct points, so the fallback is not exercised. -/
theorem C7_counterexample :
    P7.n_traj = 1 ∧ N P7 = 2 ∧
    (∀ v ∈ X_flat P7 Z0, v = 1) ∧
    (X_flat P7 Z0).length = 2 ∧
    X_all P7 Z0 = X_flat P7 Z0 ∧
    X_all P7 Z0 ≠ [(X_flat P7 Z0).headI, (X_flat P7 Z0).headI + 1e-6] := by
  have hone : 1 ≤ P7.n_traj := by norm_num [P7]
  refine ⟨rfl, N_P7, ?_, ?_, X_all_eq_X_flat P7 Z0 hone, ?_⟩
  · intro v hv
    rw [X_flat_P7] at hv
    rcases List.mem_cons.mp hv with h | h
    · exact h
    · rcases List.mem_cons.mp h with h2 | h2
      · exact h2
      · simp at h2
  · rw [X_flat_P7]
    rfl
  · rw [X_all_eq_X_flat P7 Z0 hone, X_flat_P7]
    intro hc
    rw [List.cons.injEq, List.cons.injEq] at hc
    have h2 := hc.2.1
    simp only [List.headI] at h2
    norm_num at h2

/-- Claim C7 amended: the synthesis branch triggers on a sample with fewer
than 2 entries (by count, not by distinctness); since `n_traj ≥ 1` and
`N ≥ 2` the flattened sample always has at least 2 entries, so the branch is
never exercised and `X_all` is the unpadded sample — in particular in the
degenerate case `n_traj = 1`, `N = 2`. -/
theorem C7_no_padding_needed (p : Params) (Z : ℕ → ℕ → ℝ) (h : 1 ≤ p.n_traj) :
    2 ≤ (X_flat p Z).length ∧ X_all p Z = X_flat p Z :=
  ⟨two_le_X_flat_length p Z h, X_all_eq_X_flat p Z h⟩

/-- Witness for the amended C7, at the degenerate run itself. -/
theorem C7_witness :
    1 ≤ P7.n_traj ∧ (2 ≤ (X_flat P7 Z0).length ∧ X_all P7 Z0 = X_flat P7 Z0) := by
  have h : 1 ≤ P7.n_traj := by norm_num [P7]
  exact ⟨h, C7_no_padding_needed P7 Z0 h⟩

/-- Claim C2: the analytical comparison statistics are the closed-form OU
values, and at `R = 2000`, `C = 1e-3`, `V0 = 0`, `Vf = 10`, `sigma = 1`,
`T = 10` they evaluate to `theta = 0.5`, `mean_an = 10 + (0 - 10) * exp(-5)`
and `var_an = 1 - exp(-10)`. -/
theorem C2_analytic_stats :
    (∀ p : Params,
      mean_an p = p.Vf + (p.V0 - p.Vf) * Real.exp (-(theta p) * p.T) ∧
      var_an p = p.sigma ^ 2 / (2 * theta p) * (1 - Real.exp (-2 * theta p * p.T))) ∧
    theta Pdef = 0.5 ∧
    mean_an Pdef = 10 + (0 - 10) * Real.exp (-5) ∧
    var_an Pdef = 1 - Real.exp (-10) := by
  have ht : theta Pdef = 0.5 := by
    rw [theta]
    norm_num [Pdef]
  refine ⟨fun p => ⟨rfl, rfl⟩, ht, ?_, ?_⟩
  · have harg : -(theta Pdef) * Pdef.T = -5 := by
      rw [ht]
      norm_num [Pdef]
    rw [mean_an, harg]
    norm_num [Pdef]
  · have harg : -2 * theta Pdef * Pdef.T = -10 := by
      rw [ht]
      norm_num [Pdef]
    rw [var_an, harg, ht]
    norm_num [Pdef]

lemma kdeBandwidth_nonneg (s : List ℝ) : 0 ≤ kdeBandwidth s := by
  rw [kdeBandwidth]
  exact mul_nonneg (Real.rpow_nonneg (Nat.cast_nonneg _) _) (Real.sqrt_nonneg _)

lemma pdf_sim_nonneg (p : Params) (Z : ℕ → ℕ → ℝ) (v : ℝ) : 0 ≤ pdf_sim p Z v := by
  rw [pdf_sim, kdeEval]
  apply div_nonneg
  · apply List.sum_nonneg
    intro a ha
    obtain ⟨y, _, rfl⟩ := List.mem_map.mp ha
    exact le_of_lt (Real.exp_pos _)
  · exact mul_nonneg (mul_nonneg (Nat.cast_nonneg _) (kdeBandwidth_nonneg _))
      (Real.sqrt_nonneg _)

lemma pdf_an_nonneg (p : Params) (v : ℝ) : 0 ≤ pdf_an p v := by
  rw [pdf_an, normPdf]
  exact div_nonneg (le_of_lt (Real.exp_pos _))
    (mul_nonneg (Real.sqrt_nonneg _) (Real.sqrt_nonneg _))

lemma dx_eq (p : Params) (Z : ℕ → ℕ → ℝ) : dx p Z = (gridHi p Z - gridLo p Z) / 299 := by
  rw [dx, x_vals_at, x_vals_at]
  push_cast
  ring

lemma dx_nonneg (p : Params) (Z : ℕ → ℕ → ℝ) : 0 ≤ dx p Z := by
  rw [dx_eq]
  apply div_nonneg _ (by norm_num)
  rw [gridHi, gridLo]
  have h := listMin_le_listMax (X_all p Z)
  have h01 : (0.1 : ℝ) ≥ 0 := by norm_num
  linarith

/-- Claim C6 amended: the overlap metric equals
`sum over the 300-point grid of min(pdf_sim, pdf_an) * dx` and is always
nonnegative; the upper bound 1 does not hold in general (see the
counterexample). -/
theorem C6_overlap_formula (p : Params) (Z : ℕ → ℕ → ℝ) :
    overlap p Z =
      ((List.range 300).map fun k =>
        min (pdf_sim p Z (x_vals_at p Z k)) (pdf_an p (x_vals_at p Z k)) * dx p Z).sum ∧
    0 ≤ overlap p Z := by
  refine ⟨rfl, ?_⟩
  rw [overlap]
  apply List.sum_nonneg
  intro a ha
  obtain ⟨k, _, rfl⟩ := List.mem_map.mp ha
  exact mul_nonneg (le_min (pdf_sim_nonneg p Z _) (pdf_an_nonneg p _)) (dx_nonneg p Z)

lemma sum_map_range100 (f : ℕ → ℝ) :
    ((List.range 100).map f).sum = ((List.range 99).map f).sum + f 99 := by
  rw [show (100 : ℕ) = 99 + 1 from rfl, List.range_succ, List.map_append, List.sum_append]
  simp

lemma sum_map_eq_of_const (n : ℕ) (f : ℕ → ℝ) (c : ℝ) (h : ∀ t, t < n → f t = c) :
    ((List.range n).map f).sum = n * c := by
  have heq : (List.range n).map f = (List.range n).map fun _ => c := by
    apply List.map_congr_left
    intro t ht
    exact h t (List.mem_range.mp ht)
  rw [heq, sum_map_const_real]

lemma theta_P6 : theta P6 = 1 := by
  rw [theta]
  norm_num [P6]

lemma N_P6 : N P6 = 100 := by
  have h : P6.T / P6.dt = 100 := by norm_num [P6]
  rw [N, h]
  norm_num
  decide

lemma traj_P6_step (t : ℕ) (h1 : 1 ≤ t) (h2 : t ≤ 99) :
    trajectories P6 Z6 0 t = 1 + Z6 0 (t - 1) / 10000 := by
  have h := trajectories_succ P6 Z6 t h1 (by rw [N_P6]; omega) 0
  rw [h, theta_P6]
  have hs : Real.sqrt P6.dt = 1 := by
    rw [show P6.dt = (1 : ℝ) from rfl, Real.sqrt_one]
  rw [hs]
  show _ + 1 * (P6.Vf - _) * P6.dt + P6.sigma * 1 * Z6 0 (t - 1) = _
  rw [show P6.Vf = (1 : ℝ) from rfl, show P6.dt = (1 : ℝ) from rfl,
    show P6.sigma = (1 / 10000 : ℝ) from rfl]
  ring

lemma traj_P6_val (t : ℕ) (ht : t < 100) :
    trajectories P6 Z6 0 t = if t = 99 then 1 + 1 / 1490 else 1 := by
  rcases Nat.eq_zero_or_pos t with h0 | h1
  · subst h0
    rw [trajectories_zero]
    norm_num [P6]
  · rw [traj_P6_step t h1 (by omega)]
    by_cases h99 : t = 99
    · subst h99
      rw [if_pos rfl]
      have hz : Z6 0 (99 - 1) = 1000 / 149 := by
        simp [Z6]
      rw [hz]
      norm_num
    · rw [if_neg h99]
      have hz : Z6 0 (t - 1) = 0 := by
        have hne : ¬ (t - 1 = 98) := by omega
        simp [Z6, hne]
      rw [hz]
      norm_num

lemma X_flat_P6 : X_flat P6 Z6 = (List.range 100).map fun t => trajectories P6 Z6 0 t := by
  have hn : P6.n_traj = 1 := rfl
  have hr : List.range 1 = [0] := rfl
  rw [X_flat, N_P6, hn, hr]
  simp

lemma X_flat_P6_len : (X_flat P6 Z6).length = 100 := by
  rw [X_flat_length, N_P6]
  rfl

lemma X_flat_P6_sum : (X_flat P6 Z6).sum = 100 + 1 / 1490 := by
  rw [X_flat_P6, sum_map_range100]
  have h1 : ((List.range 99).map fun t => trajectories P6 Z6 0 t).sum = 99 * 1 := by
    apply sum_map_eq_of_const
    intro t ht
    rw [traj_P6_val t (by omega), if_neg (by omega)]
  have h2 : trajectories P6 Z6 0 99 = 1 + 1 / 1490 := by
    rw [traj_P6_val 99 (by norm_num), if_pos rfl]
  rw [h1, h2]
  norm_num

lemma X_all_P6 : X_all P6 Z6 = X_flat P6 Z6 :=
  X_all_eq_X_flat P6 Z6 (by norm_num [P6])

lemma listMin_P6 : listMin (X_all P6 Z6) = 1 := by
  rw [X_all_P6]
  apply listMin_eq_of
  · rw [X_flat_P6]
    refine List.mem_map.mpr ⟨0, by simp, ?_⟩
    rw [traj_P6_val 0 (by norm_num)]
    norm_num
  · intro y hy
    rw [X_flat_P6] at hy
    obtain ⟨t, ht, rfl⟩ := List.mem_map.mp hy
    rw [traj_P6_val t (List.mem_range.mp ht)]
    by_cases h : t = 99
    · rw [if_pos h]
      norm_num
    · rw [if_neg h]

lemma listMax_P6 : listMax (X_all P6 Z6) = 1 + 1 / 1490 := by
  rw [X_all_P6]
  apply listMax_eq_of
  · rw [X_flat_P6]
    refine List.mem_map.mpr ⟨99, by simp, ?_⟩
    rw [traj_P6_val 99 (by norm_num), if_pos rfl]
  · intro y hy
    rw [X_flat_P6] at hy
    obtain ⟨t, ht, rfl⟩ := List.mem_map.mp hy
    rw [traj_P6_val t (List.mem_range.mp ht)]
    by_cases h : t = 99
    · rw [if_pos h]
    · rw [if_neg h]
      norm_num

lemma gridLo_P6 : gridLo P6 Z6 = 0.9 := by
  rw [gridLo, listMin_P6]
  norm_num

lemma gridHi_P6 : gridHi P6 Z6 = 1.1 + 1 / 1490 := by
  rw [gridHi, listMax_P6]
  norm_num

lemma dx_P6 : dx P6 Z6 = 1 / 1490 := by
  rw [dx_eq, gridHi_P6, gridLo_P6]
  norm_num

lemma x149_P6 : x_vals_at P6 Z6 149 = 1 := by
  rw [x_vals_at, gridHi_P6, gridLo_P6]
  norm_num

lemma kdeBandwidth_P6 :
    kdeBandwidth (X_all P6 Z6) = (100 : ℝ) ^ (-(1 / 5 : ℝ)) * (1 / 14900) := by
  have hlen : ((X_all P6 Z6).length : ℝ) = 100 := by
    rw [X_all_P6, X_flat_P6_len]
    norm_num
  have hsum : (X_all P6 Z6).sum = 100 + 1 / 1490 := by
    rw [X_all_P6]
    exact X_flat_P6_sum
  rw [kdeBandwidth, hlen, hsum]
  have hsq : ((X_all P6 Z6).map fun y => (y - (100 + 1 / 1490) / 100) ^ 2).sum
      = 9900 / 22201000000 := by
    rw [X_all_P6, X_flat_P6, List.map_map, sum_map_range100]
    have hconst : ((List.range 99).map
          ((fun y => (y - (100 + 1 / 1490) / 100) ^ 2) ∘ fun t => trajectories P6 Z6 0 t)).sum
        = 99 * ((1 - (100 + 1 / 1490) / 100) ^ 2) := by
      apply sum_map_eq_of_const
      intro t ht
      simp only [Function.comp_apply]
      rw [traj_P6_val t (by omega), if_neg (by omega)]
    rw [hconst]
    simp only [Function.comp_apply]
    rw [traj_P6_val 99 (by norm_num), if_pos rfl]
    norm_num
  rw [hsq]
  congr 1
  rw [show (9900 / 22201000000 : ℝ) / (100 - 1) = (1 / 14900) ^ 2 by norm_num]
  exact Real.sqrt_sq (by norm_num)

lemma kdeBandwidth_P6_pos : 0 < kdeBandwidth (X_all P6 Z6) := by
  rw [kdeBandwidth_P6]
  positivity

lemma rpow_P6_bound : (100 : ℝ) ^ (-(1 / 5 : ℝ)) ≤ 1 / 2.51 := by
  have h5 : ((2.51 : ℝ) ^ (5 : ℕ)) ≤ 100 := by norm_num
  have heq : (((2.51 : ℝ) ^ (5 : ℕ)) : ℝ) ^ ((1 / 5 : ℝ)) = 2.51 := by
    rw [show ((2.51 : ℝ) ^ (5 : ℕ)) = (2.51 : ℝ) ^ (((5 : ℕ) : ℝ)) from
      (Real.rpow_natCast 2.51 5).symm]
    rw [← Real.rpow_mul (by norm_num : (0 : ℝ) ≤ 2.51)]
    rw [show (((5 : ℕ) : ℝ) * (1 / 5)) = 1 by norm_num, Real.rpow_one]
  have h1 : (2.51 : ℝ) ≤ (100 : ℝ) ^ ((1 / 5 : ℝ)) := by
    calc (2.51 : ℝ) = ((2.51 : ℝ) ^ (5 : ℕ)) ^ ((1 / 5 : ℝ)) := heq.symm
      _ ≤ (100 : ℝ) ^ ((1 / 5 : ℝ)) := Real.rpow_le_rpow (by positivity) h5 (by norm_num)
  rw [Real.rpow_neg (by norm_num : (0 : ℝ) ≤ 100),
    show (1 / 2.51 : ℝ) = (2.51 : ℝ)⁻¹ by norm_num]
  exact inv_anti₀ (by norm_num) h1

lemma kdeBandwidth_P6_le : kdeBandwidth (X_all P6 Z6) ≤ 1 / 37000 := by
  rw [kdeBandwidth_P6]
  calc (100 : ℝ) ^ (-(1 / 5 : ℝ)) * (1 / 14900) ≤ (1 / 2.51) * (1 / 14900) :=
        mul_le_mul_of_nonneg_right rpow_P6_bound (by norm_num)
    _ ≤ 1 / 37000 := by norm_num

lemma sqrt_two_pi_le : Real.sqrt (2 * Real.pi) ≤ 2.5067 := by
  have hpi : Real.pi < 3.141593 := Real.pi_lt_d6
  have h : (2 * Real.pi) ≤ (2.5067 : ℝ) ^ 2 := by nlinarith
  calc Real.sqrt (2 * Real.pi) ≤ Real.sqrt ((2.5067 : ℝ) ^ 2) := Real.sqrt_le_sqrt h
    _ = 2.5067 := Real.sqrt_sq (by norm_num)

lemma sqrt_two_pi_pos : 0 < Real.sqrt (2 * Real.pi) :=
  Real.sqrt_pos.mpr (by positivity)

lemma exp_sum_P6 :
    (99 : ℝ) ≤ ((X_all P6 Z6).map fun y =>
      Real.exp (-((1 - y) ^ 2) / (2 * kdeBandwidth (X_all P6 Z6) ^ 2))).sum := by
  set b := kdeBandwidth (X_all P6 Z6) with hb
  rw [X_all_P6, X_flat_P6, List.map_map, sum_map_range100]
  have hconst : ((List.range 99).map
        ((fun y => Real.exp (-((1 - y) ^ 2) / (2 * b ^ 2))) ∘ fun t => trajectories P6 Z6 0 t)).sum
      = 99 * 1 := by
    apply sum_map_eq_of_const
    intro t ht
    simp only [Function.comp_apply]
    rw [traj_P6_val t (by omega), if_neg (by omega)]
    norm_num
  rw [hconst]
  simp only [Function.comp_apply]
  have hlast : 0 ≤ Real.exp (-((1 - trajectories P6 Z6 0 99) ^ 2) / (2 * b ^ 2)) :=
    le_of_lt (Real.exp_pos _)
  linarith

lemma pdf_sim_P6_ge : (1505 : ℝ) ≤ pdf_sim P6 Z6 1 := by
  have hlen : ((X_all P6 Z6).length : ℝ) = 100 := by
    rw [X_all_P6, X_flat_P6_len]
    norm_num
  rw [pdf_sim, kdeEval, hlen]
  have hbpos : 0 < kdeBandwidth (X_all P6 Z6) := kdeBandwidth_P6_pos
  have hble : kdeBandwidth (X_all P6 Z6) ≤ 1 / 37000 := kdeBandwidth_P6_le
  have hsum := exp_sum_P6
  have hden_pos : 0 < 100 * kdeBandwidth (X_all P6 Z6) * Real.sqrt (2 * Real.pi) :=
    mul_pos (mul_pos (by norm_num) hbpos) sqrt_two_pi_pos
  have hden_le : 100 * kdeBandwidth (X_all P6 Z6) * Real.sqrt (2 * Real.pi)
      ≤ 100 * (1 / 37000) * 2.5067 :=
    mul_le_mul (mul_le_mul_of_nonneg_left hble (by norm_num)) sqrt_two_pi_le
      (le_of_lt sqrt_two_pi_pos) (by norm_num)
  calc (1505 : ℝ) ≤ 99 / (100 * (1 / 37000) * 2.5067) := by norm_num
    _ ≤ ((X_all P6 Z6).map fun y =>
          Real.exp (-((1 - y) ^ 2) / (2 * kdeBandwidth (X_all P6 Z6) ^ 2))).sum /
        (100 * kdeBandwidth (X_all P6 Z6) * Real.sqrt (2 * Real.pi)) :=
      div_le_div₀ (le_trans (by norm_num) hsum) hsum hden_pos hden_le

lemma mean_an_P6 : mean_an P6 = 1 := by
  rw [mean_an]
  norm_num [P6]

lemma var_an_P6_arg : -2 * theta P6 * P6.T = -200 := by
  rw [theta_P6]
  norm_num [P6]

lemma var_an_P6_pos : 0 < var_an P6 := by
  rw [var_an, var_an_P6_arg, theta_P6]
  have hexp : Real.exp (-200) < 1 := by
    rw [← Real.exp_zero]
    exact Real.exp_lt_exp.mpr (by norm_num)
  have hsig : P6.sigma ^ 2 = 1 / 100000000 := by norm_num [P6]
  rw [hsig]
  nlinarith

lemma var_an_P6_le : var_an P6 ≤ (1 / 14100 : ℝ) ^ 2 := by
  rw [var_an, var_an_P6_arg, theta_P6]
  have hexp : 0 < Real.exp (-200) := Real.exp_pos _
  have hsig : P6.sigma ^ 2 = 1 / 100000000 := by norm_num [P6]
  rw [hsig]
  nlinarith

lemma pdf_an_P6_ge : (1505 : ℝ) ≤ pdf_an P6 1 := by
  have hvpos : 0 < Real.sqrt (var_an P6) := Real.sqrt_pos.mpr var_an_P6_pos
  have hvle : Real.sqrt (var_an P6) ≤ 1 / 14100 :=
    calc Real.sqrt (var_an P6) ≤ Real.sqrt ((1 / 14100 : ℝ) ^ 2) :=
          Real.sqrt_le_sqrt var_an_P6_le
      _ = 1 / 14100 := Real.sqrt_sq (by norm_num)
  rw [pdf_an, normPdf, mean_an_P6]
  have hnum : Real.exp (-((1 - 1 : ℝ) ^ 2) / (2 * Real.sqrt (var_an P6) ^ 2)) = 1 := by
    norm_num
  rw [hnum]
  have hden_pos : 0 < Real.sqrt (var_an P6) * Real.sqrt (2 * Real.pi) :=
    mul_pos hvpos sqrt_two_pi_pos
  have hden_le : Real.sqrt (var_an P6) * Real.sqrt (2 * Real.pi) ≤ (1 / 14100) * 2.5067 :=
    mul_le_mul hvle sqrt_two_pi_le (le_of_lt sqrt_two_pi_pos) (by norm_num)
  calc (1505 : ℝ) ≤ 1 / ((1 / 14100) * 2.5067) := by norm_num
    _ ≤ 1 / (Real.sqrt (var_an P6) * Real.sqrt (2 * Real.pi)) :=
      div_le_div₀ (by norm_num) le_rfl hden_pos hden_le

/-- Counterexample to claim C6: at the valid parameter set `P6` (all positivity
constraints satisfied, one trajectory, 100 steps) with the admissible normal
draw `Z6`, the overlap metric exceeds 1: both densities are spikes much
narrower than the grid spacing, centred exactly on the grid point
`x_vals[149] = 1`, so the Riemann sum overshoots the unit probability mass. -/
theorem C6_counterexample :
    0 < P6.R ∧ 0 < P6.C ∧ 0 < P6.Vf ∧ 0 < P6.sigma ∧ 0 < P6.dt ∧ 0 < P6.T ∧
    1 ≤ P6.n_traj ∧ 1 < overlap P6 Z6 := by
  refine ⟨by norm_num [P6], by norm_num [P6], by norm_num [P6], by norm_num [P6],
    by norm_num [P6], by norm_num [P6], by norm_num [P6], ?_⟩
  have hterm : (1505 : ℝ) * (1 / 1490) ≤
      min (pdf_sim P6 Z6 (x_vals_at P6 Z6 149)) (pdf_an P6 (x_vals_at P6 Z6 149)) * dx P6 Z6 := by
    rw [x149_P6, dx_P6]
    exact mul_le_mul_of_nonneg_right (le_min pdf_sim_P6_ge pdf_an_P6_ge) (by norm_num)
  have hmem : min (pdf_sim P6 Z6 (x_vals_at P6 Z6 149)) (pdf_an P6 (x_vals_at P6 Z6 149))
        * dx P6 Z6 ∈
      (List.range 300).map fun k =>
        min (pdf_sim P6 Z6 (x_vals_at P6 Z6 k)) (pdf_an P6 (x_vals_at P6 Z6 k)) * dx P6 Z6 :=
    List.mem_map_of_mem _ (List.mem_range.mpr (by norm_num))
  have hsum : min (pdf_sim P6 Z6 (x_vals_at P6 Z6 149)) (pdf_an P6 (x_vals_at P6 Z6 149))
      * dx P6 Z6 ≤ overlap P6 Z6 := by
    rw [overlap]
    apply List.single_le_sum ?_ _ hmem
    intro a ha
    obtain ⟨k, _, rfl⟩ := List.mem_map.mp ha
    exact mul_nonneg (le_min (pdf_sim_nonneg P6 Z6 _) (pdf_an_nonneg P6 _)) (dx_nonneg P6 Z6)
  calc (1 : ℝ) < 1505 * (1 / 1490) := by norm_num
    _ ≤ min (pdf_sim P6 Z6 (x_vals_at P6 Z6 149)) (pdf_an P6 (x_vals_at P6 Z6 149))
        * dx P6 Z6 := hterm
    _ ≤ overlap P6 Z6 := hsum

end OU
